import Mathlib

/-!
Verification of the message-framing core of a Protocol Buffers codec
(source: src/src/message.rs).  The `Message` trait is embedded as a
structure of its required methods (`encode`, `merge`, `encoded_len` and a
default value); the provided methods (`encode_length_delimited`, `decode`,
`decode_length_delimited`, `merge_length_delimited`) and the two `Field`
implementations (for a message value and for a vector of message values)
are translated from the source.  External collaborators that are not part
of the source tree (the byte-buffer abstraction, the varint codec, the key
codec and the wire-type check) are modelled from the spec.

Byte buffers: a readable buffer is a `List Nat` of the bytes still to be
read (`remaining = length`); `Buf::take(n)` is modelled by handing the
callee the first `n` bytes and recombining the callee's leftover with the
bytes past the view.  A writable buffer records the bytes written so far
and the remaining writable capacity; writing past the capacity aborts
(the byte sink's overflow abort), modelled by `Option`/`aborted` results.
Merge results carry the value and buffer state on error as well, mirroring
the in-place mutation of `&mut self` and `&mut buf` in the source.
-/

namespace Prost

/-- Modelled from the spec: wire-type discriminants of the field key; the
spec requires at least a `LengthDelimited` discriminant recognised by
`check_wire_type`, alongside the other standard discriminants. -/
inductive WireType where
  | Varint
  | SixtyFourBit
  | LengthDelimited
  | ThirtyTwoBit
deriving DecidableEq

/-- Error kinds surfaced to the caller (spec section 7). `varintFailure`
stands for a malformed-varint error propagated from the varint codec. -/
inductive ProtoError where
  | insufficientCapacity
  | bufferUnderflow
  | wireTypeMismatch
  | varintFailure
deriving DecidableEq

/-- Modelled from the spec: a writable buffer exposing the bytes written so
far and the remaining writable capacity (`remaining_mut`). -/
structure WBuf where
  written : List Nat
  remaining_mut : Nat
deriving DecidableEq

/-- Modelled from the spec: putting bytes into a writable buffer; `none`
models the byte sink's abort when the write exceeds the remaining
capacity. -/
def WBuf.writeBytes (buf : WBuf) (bs : List Nat) : Option WBuf :=
  if bs.length ≤ buf.remaining_mut then
    some { written := buf.written ++ bs, remaining_mut := buf.remaining_mut - bs.length }
  else none

/-- Modelled from the spec: base-128 continuation-bit varint encoding,
little-endian group order.  The first argument is fuel; every call supplies
fuel strictly greater than the value, so the fuel-exhausted branch is
unreachable and the recursion is structural. -/
def encode_varint_go (fuel n : Nat) : List Nat :=
  match fuel with
  | 0 => []
  | fuel + 1 =>
    if n < 128 then [n] else (n % 128 + 128) :: encode_varint_go fuel (n / 128)

/-- Modelled from the spec: `encode_varint` of the varint codec. -/
def encode_varint (n : Nat) : List Nat :=
  encode_varint_go (n + 1) n

/-- Modelled from the spec: `encoded_len_varint` of the varint codec — the
number of bytes `encode_varint` writes. -/
def encoded_len_varint (n : Nat) : Nat :=
  (encode_varint n).length

/-- Modelled from the spec: `decode_varint` of the varint codec; returns
the decoded value and the remaining bytes, or `none` on a malformed or
truncated varint. -/
def decode_varint : List Nat → Option (Nat × List Nat)
  | [] => none
  | b :: rest =>
    if b < 128 then some (b, rest)
    else
      match decode_varint rest with
      | none => none
      | some (v, rest') => some (v * 128 + b % 128, rest')

/-- Modelled from the spec: the numeric value of a wire-type discriminant
inside a field key. -/
def wireTypeVal : WireType → Nat
  | .Varint => 0
  | .SixtyFourBit => 1
  | .LengthDelimited => 2
  | .ThirtyTwoBit => 3

/-- Modelled from the spec: `encode_key` — the key bytes for a tag and wire
type, the varint of `tag << 3 | wire_type`. -/
def keyBytes (tag : Nat) (wt : WireType) : List Nat :=
  encode_varint (tag * 8 + wireTypeVal wt)

/-- Modelled from the spec: `key_len` — the encoded length of a field key
for the given tag. -/
def key_len (tag : Nat) : Nat :=
  (encode_varint (tag * 8)).length

/-- Modelled from the spec: `check_wire_type(expected, actual)` — `none` on
success, the wire-type-mismatch error when the discriminants differ. -/
def check_wire_type (expected actual : WireType) : Option ProtoError :=
  if expected = actual then none else some ProtoError.wireTypeMismatch

/-- Outcome of an encode into a writable buffer.  `ok`/`err` carry the
buffer state (the source mutates the buffer in place); `aborted` models an
unrecoverable abort (writing past capacity, or the `expect` in the field
encoder). -/
inductive EResult where
  | ok : WBuf → EResult
  | err : ProtoError → WBuf → EResult
  | aborted : EResult
deriving DecidableEq

/-- Outcome of a merge/decode from a readable buffer.  Both constructors
carry the value and the remaining buffer, because the source operates on
`&mut self` and `&mut buf`, which keep their (possibly advanced) state when
an error is returned. -/
inductive MResult (α : Type) where
  | ok : α → List Nat → MResult α
  | err : ProtoError → α → List Nat → MResult α
deriving DecidableEq

/-- The buffer component of a merge outcome — the bytes still unread after
the operation, whether it succeeded or failed. -/
def MResult.rest {α : Type} : MResult α → List Nat
  | .ok _ r => r
  | .err _ _ r => r

/-- Shallow embedding of the `Message` trait (src/src/message.rs): the
required methods `encode`, `merge`, `encoded_len` of an implementation,
plus the `Default` value required by the decode methods. -/
structure Message (α : Type) where
  encode : α → WBuf → EResult
  merge : α → List Nat → MResult α
  encoded_len : α → Nat
  default : α

variable {α : Type}

/-- `Message::encode_length_delimited` (src/src/message.rs lines 24-31):
computes `len`, performs the capacity check exactly as written in the
source (`len + encoded_len_varint(len) < remaining_mut` returns the
insufficient-capacity error), then writes the length varint and the
payload. -/
def Message.encode_length_delimited (M : Message α) (m : α) (buf : WBuf) : EResult :=
  let len := M.encoded_len m
  if len + encoded_len_varint len < buf.remaining_mut then
    .err .insufficientCapacity buf
  else
    match buf.writeBytes (encode_varint len) with
    | none => .aborted
    | some buf1 => M.encode m buf1

/-- `Message::decode` (src/src/message.rs lines 35-38): merge into a
default instance. -/
def Message.decode (M : Message α) (buf : List Nat) : MResult α :=
  M.merge M.default buf

/-- `Message::decode_length_delimited` (src/src/message.rs lines 41-48):
read the length varint, fail with buffer underflow when the length exceeds
the remaining bytes, otherwise decode from a view of exactly `len` bytes
(`buf.take(len)`); the callee's leftover within the view recombines with
the bytes past the view. -/
def Message.decode_length_delimited (M : Message α) (buf : List Nat) : MResult α :=
  match decode_varint buf with
  | none => .err .varintFailure M.default buf
  | some (len, buf1) =>
    if len > buf1.length then .err .bufferUnderflow M.default buf1
    else
      match M.decode (buf1.take len) with
      | .ok m rest => .ok m (rest ++ buf1.drop len)
      | .err e m rest => .err e m (rest ++ buf1.drop len)

/-- `Message::merge_length_delimited` (src/src/message.rs lines 56-62):
same underflow check as `decode_length_delimited`, then merge exactly the
`len`-byte view into the existing value. -/
def Message.merge_length_delimited (M : Message α) (m : α) (buf : List Nat) : MResult α :=
  match decode_varint buf with
  | none => .err .varintFailure m buf
  | some (len, buf1) =>
    if len > buf1.length then .err .bufferUnderflow m buf1
    else
      match M.merge m (buf1.take len) with
      | .ok m' rest => .ok m' (rest ++ buf1.drop len)
      | .err e m' rest => .err e m' (rest ++ buf1.drop len)

/-- `<M as Field>::encode` (src/src/message.rs lines 85-88): write the
field key with the length-delimited wire type, then
`encode_length_delimited`; a returned error hits the `expect` and aborts,
modelled by `none`. -/
def MessageField.encode (M : Message α) (m : α) (tag : Nat) (buf : WBuf) : Option WBuf :=
  match buf.writeBytes (keyBytes tag WireType.LengthDelimited) with
  | none => none
  | some buf1 =>
    match M.encode_length_delimited m buf1 with
    | .ok buf2 => some buf2
    | .err _ _ => none
    | .aborted => none

/-- `<M as Field>::merge` (src/src/message.rs lines 91-94): the tag is
ignored; check the wire type, then `merge_length_delimited`. -/
def MessageField.merge (M : Message α) (m : α) (_tag : Nat) (wt : WireType) (buf : List Nat) :
    MResult α :=
  match check_wire_type WireType.LengthDelimited wt with
  | some e => .err e m buf
  | none => M.merge_length_delimited m buf

/-- `<M as Field>::encoded_len` (src/src/message.rs lines 97-99): the key
length plus the message's own encoded length, exactly as in the source. -/
def MessageField.encoded_len (M : Message α) (m : α) (tag : Nat) : Nat :=
  key_len tag + M.encoded_len m

/-- `<Vec<M> as Field>::encode` (src/src/message.rs lines 104-108): the
singular field encode of each element in sequence order. -/
def VecField.encode (M : Message α) (v : List α) (tag : Nat) (buf : WBuf) : Option WBuf :=
  match v with
  | [] => some buf
  | m :: rest =>
    match MessageField.encode M m tag buf with
    | none => none
    | some buf1 => VecField.encode M rest tag buf1

/-- `<Vec<M> as Field>::merge` (src/src/message.rs lines 110-116): check
the wire type, merge one frame into a fresh default value, and push it onto
the vector; on error the vector is left as it was and the fresh value is
dropped. -/
def VecField.merge (M : Message α) (v : List α) (tag : Nat) (wt : WireType) (buf : List Nat) :
    MResult (List α) :=
  match check_wire_type WireType.LengthDelimited wt with
  | some e => .err e v buf
  | none =>
    match MessageField.merge M M.default tag WireType.LengthDelimited buf with
    | .ok value rest => .ok (v ++ [value]) rest
    | .err e _ rest => .err e v rest

/-- `<Vec<M> as Field>::encoded_len` (src/src/message.rs lines 118-120):
the sum of the elements' singular field encoded lengths. -/
def VecField.encoded_len (M : Message α) (v : List α) (tag : Nat) : Nat :=
  (v.map (fun m => MessageField.encoded_len M m tag)).sum

/-- A trivial conforming message implementation over `Unit`: it encodes to
zero bytes, its merge consumes the whole buffer, and its encoded length is
zero.  Used to instantiate the contract at concrete inputs. -/
def unitMsg : Message Unit where
  encode := fun _ buf => .ok buf
  merge := fun _ _ => .ok () []
  encoded_len := fun _ => 0
  default := ()

/-- The length-delimited merge starting from the default value is the
length-delimited decode: `decode` is `merge` into a default instance. -/
theorem merge_ld_default_eq_decode_ld (M : Message α) (buf : List Nat) :
    M.merge_length_delimited M.default buf = M.decode_length_delimited buf := by
  unfold Message.merge_length_delimited Message.decode_length_delimited Message.decode
  rfl

/-- Claim C1: the capacity check of `encode_length_delimited` is inverted.
A trivial message needs one byte of frame (`varint(0)`); on a buffer with
remaining capacity 2 — ample, so the claim requires success — the code
returns the insufficient-capacity error before writing anything, and on a
buffer with remaining capacity 0 — insufficient, so the claim requires the
insufficient-capacity error — the check passes and the code proceeds to
write past the capacity, aborting instead of failing gracefully. -/
theorem encode_length_delimited_capacity_check_inverted :
    unitMsg.encode_length_delimited () ⟨[], 2⟩ = .err .insufficientCapacity ⟨[], 2⟩ ∧
    unitMsg.encode_length_delimited () ⟨[], 0⟩ = .aborted ∧
    0 + encoded_len_varint 0 ≤ 2 := by
  decide

/-- Claim C2: the singular-field `encoded_len` is not consistent with the
bytes the singular-field `encode` writes.  For the trivial message at tag
1, `encoded_len` reports `key_len + encoded_len = 1`, but `encode` writes
the key, the length varint and the payload — `[10, 0]`, two bytes: the
field-level length omits the length varint's own size. -/
theorem field_encoded_len_inconsistent_with_encode :
    MessageField.encoded_len unitMsg () 1 = 1 ∧
    MessageField.encode unitMsg () 1 ⟨[], 2⟩ = some ⟨[10, 0], 0⟩ ∧
    MessageField.encoded_len unitMsg () 1 ≠ ([10, 0] : List Nat).length := by
  decide

/-- Claim C3: the length-delimited round-trip is blocked by the inverted
capacity check.  For the trivial conforming message, a buffer with
remaining capacity 2 is sufficient for the 1-byte frame, yet
`encode_length_delimited` rejects it and produces no bytes to round-trip;
only at capacity exactly 1 does the encode succeed, and on those bytes the
round-trip does hold: decoding returns the message, consumes exactly the
frame, and leaves trailing bytes untouched. -/
theorem length_delimited_roundtrip_blocked_by_capacity_check :
    unitMsg.encode_length_delimited () ⟨[], 2⟩ = .err .insufficientCapacity ⟨[], 2⟩ ∧
    unitMsg.encode_length_delimited () ⟨[], 1⟩ = .ok ⟨[0], 0⟩ ∧
    unitMsg.decode_length_delimited [0] = .ok () [] ∧
    unitMsg.decode_length_delimited ([0] ++ [7, 8]) = .ok () [7, 8] := by
  decide

/-- Claim C4: when the leading varint decodes to a length greater than the
remaining readable bytes, both `decode_length_delimited` and
`merge_length_delimited` fail with the buffer-underflow error, and the
remaining buffer is exactly the bytes after the varint — no payload byte is
consumed. -/
theorem length_delimited_underflow_rejected (M : Message α) (m : α)
    (buf buf1 : List Nat) (len : Nat)
    (h1 : decode_varint buf = some (len, buf1)) (h2 : len > buf1.length) :
    M.decode_length_delimited buf = .err .bufferUnderflow M.default buf1 ∧
    M.merge_length_delimited m buf = .err .bufferUnderflow m buf1 := by
  constructor
  · unfold Message.decode_length_delimited
    rw [h1]
    simp [h2]
  · unfold Message.merge_length_delimited
    rw [h1]
    simp [h2]

/-- Witness for C4: the buffer `[5]` declares a 5-byte frame with zero
bytes remaining after the varint. -/
theorem length_delimited_underflow_rejected_witness :
    unitMsg.decode_length_delimited [5] = .err .bufferUnderflow () [] ∧
    unitMsg.merge_length_delimited () [5] = .err .bufferUnderflow () [] :=
  length_delimited_underflow_rejected unitMsg () [5] [] 5 (by decide) (by decide)

/-- Claim C5: for every wire type other than `LengthDelimited`, both the
singular message-field merge and the collection-field merge fail with the
wire-type-mismatch error, leaving the field value and the buffer exactly as
they were. -/
theorem field_merge_wire_type_mismatch (M : Message α) (m : α) (v : List α)
    (tag : Nat) (wt : WireType) (buf : List Nat) (h : wt ≠ WireType.LengthDelimited) :
    MessageField.merge M m tag wt buf = .err .wireTypeMismatch m buf ∧
    VecField.merge M v tag wt buf = .err .wireTypeMismatch v buf := by
  have hw : check_wire_type WireType.LengthDelimited wt = some ProtoError.wireTypeMismatch := by
    unfold check_wire_type
    rw [if_neg (fun hh => h hh.symm)]
  constructor
  · unfold MessageField.merge
    rw [hw]
  · unfold VecField.merge
    rw [hw]

/-- Witness for C5: merging with the `Varint` wire type is rejected and
mutates nothing. -/
theorem field_merge_wire_type_mismatch_witness :
    MessageField.merge unitMsg () 1 WireType.Varint [3] = .err .wireTypeMismatch () [3] ∧
    VecField.merge unitMsg [()] 1 WireType.Varint [3] = .err .wireTypeMismatch [()] [3] :=
  field_merge_wire_type_mismatch unitMsg () [()] 1 WireType.Varint [3] (by decide)

/-- The Message contract on the encode side (spec sections 3 and 4.1): a
conforming implementation has a wire representation `encBytes m` that a
successful `encode` appends to the buffer, and whose length is exactly
`encoded_len m`. -/
def EncodesConsistently (M : Message α) (encBytes : α → List Nat) : Prop :=
  ∀ m buf out, M.encode m buf = .ok out →
    out.written = buf.written ++ encBytes m ∧
    (encBytes m).length = M.encoded_len m

/-- The complete wire image of one singular message field: its field key,
its length varint and its payload. -/
def fieldFrame (M : Message α) (encBytes : α → List Nat) (tag : Nat) (m : α) : List Nat :=
  keyBytes tag WireType.LengthDelimited ++ encode_varint (M.encoded_len m) ++ encBytes m

/-- A successful write appends exactly the requested bytes and spends that
much capacity. -/
theorem writeBytes_some (buf : WBuf) (bs : List Nat) (out : WBuf)
    (h : buf.writeBytes bs = some out) :
    out.written = buf.written ++ bs ∧ out.remaining_mut = buf.remaining_mut - bs.length := by
  unfold WBuf.writeBytes at h
  split at h
  · injection h with h
    subst h
    exact ⟨rfl, rfl⟩
  · cases h

/-- A successful singular-field encode appends exactly the field's complete
frame: key, length varint, payload. -/
theorem messageField_encode_written (M : Message α) (encBytes : α → List Nat)
    (hM : EncodesConsistently M encBytes) (m : α) (tag : Nat) (buf out : WBuf)
    (h : MessageField.encode M m tag buf = some out) :
    out.written = buf.written ++ fieldFrame M encBytes tag m := by
  unfold MessageField.encode at h
  cases hk : buf.writeBytes (keyBytes tag WireType.LengthDelimited) with
  | none => rw [hk] at h; cases h
  | some buf1 =>
    simp only [hk] at h
    have hkw := (writeBytes_some buf _ buf1 hk).1
    cases he : M.encode_length_delimited m buf1 with
    | ok buf2 =>
      rw [he] at h
      injection h with h
      subst h
      simp only [Message.encode_length_delimited] at he
      split at he
      · cases he
      · cases hv : buf1.writeBytes (encode_varint (M.encoded_len m)) with
        | none => rw [hv] at he; cases he
        | some bufv =>
          rw [hv] at he
          have hvw := (writeBytes_some buf1 _ bufv hv).1
          have henc := (hM m bufv buf2 he).1
          rw [henc, hvw, hkw, fieldFrame]
          simp [List.append_assoc]
    | err e b => rw [he] at h; cases h
    | aborted => rw [he] at h; cases h

/-- Claim C7: whenever the collection-field encode completes, the bytes it
appended are exactly the concatenation, in sequence order, of each
element's complete singular field frame (its own key, its own length
varint, its own payload) — element frames are emitted independently and in
order, not as one shared blob. -/
theorem vec_encode_emits_singular_frames_in_order (M : Message α)
    (encBytes : α → List Nat) (hM : EncodesConsistently M encBytes)
    (v : List α) (tag : Nat) (buf out : WBuf)
    (h : VecField.encode M v tag buf = some out) :
    out.written = buf.written ++ (v.map (fieldFrame M encBytes tag)).flatten := by
  induction v generalizing buf with
  | nil =>
    unfold VecField.encode at h
    injection h with h
    subst h
    simp
  | cons m rest ih =>
    unfold VecField.encode at h
    cases hf : MessageField.encode M m tag buf with
    | none => rw [hf] at h; cases h
    | some buf1 =>
      rw [hf] at h
      have h1 := messageField_encode_written M encBytes hM m tag buf buf1 hf
      have h2 := ih buf1 h
      rw [h2, h1]
      simp [List.append_assoc]

/-- The trivial message conforms to the encode contract with the empty wire
representation. -/
theorem unitMsg_encodes_consistently : EncodesConsistently unitMsg (fun _ => []) := by
  intro m buf out h
  have h' : EResult.ok buf = EResult.ok out := h
  injection h' with h'
  subst h'
  exact ⟨by simp, rfl⟩

/-- Witness for C7: a one-element sequence at tag 1 emits exactly that
element's frame `[10, 0]`. -/
theorem vec_encode_emits_singular_frames_in_order_witness :
    (WBuf.mk [10, 0] 0).written =
      (WBuf.mk [] 2).written ++ (([()].map (fieldFrame unitMsg (fun _ => []) 1)).flatten) :=
  vec_encode_emits_singular_frames_in_order unitMsg (fun _ => [])
    unitMsg_encodes_consistently [()] 1 ⟨[], 2⟩ ⟨[10, 0], 0⟩ (by decide)

/-- One successful collection-field merge with the length-delimited wire
type appends exactly the message the frame decodes to. -/
theorem vec_merge_one_frame (M : Message α) (v : List α) (tag : Nat)
    (buf rest : List Nat) (m : α)
    (h : M.decode_length_delimited buf = .ok m rest) :
    VecField.merge M v tag WireType.LengthDelimited buf = .ok (v ++ [m]) rest := by
  have hm : MessageField.merge M M.default tag WireType.LengthDelimited buf = .ok m rest := by
    show M.merge_length_delimited M.default buf = .ok m rest
    rw [merge_ld_default_eq_decode_ld M buf]
    exact h
  show (match MessageField.merge M M.default tag WireType.LengthDelimited buf with
        | .ok value rest => MResult.ok (v ++ [value]) rest
        | .err e _ rest => MResult.err e v rest) = MResult.ok (v ++ [m]) rest
  rw [hm]

/-- Claim C6: merging two sequential length-delimited frames into an
existing sequence `s` appends, in occurrence order, exactly the messages
each frame independently decodes to: the first merge yields `s ++ [m1]`
positioned after the first frame, the second yields `s ++ [m1, m2]`
positioned after the second. -/
theorem vec_merge_accumulates_two_frames (M : Message α) (s : List α) (tag : Nat)
    (buf buf1 buf2 : List Nat) (m1 m2 : α)
    (h1 : M.decode_length_delimited buf = .ok m1 buf1)
    (h2 : M.decode_length_delimited buf1 = .ok m2 buf2) :
    VecField.merge M s tag WireType.LengthDelimited buf = .ok (s ++ [m1]) buf1 ∧
    VecField.merge M (s ++ [m1]) tag WireType.LengthDelimited buf1 =
      .ok (s ++ [m1, m2]) buf2 := by
  refine ⟨vec_merge_one_frame M s tag buf buf1 m1 h1, ?_⟩
  have h := vec_merge_one_frame M (s ++ [m1]) tag buf1 buf2 m2 h2
  simpa [List.append_assoc] using h

/-- Witness for C6: two zero-length frames `[0, 0]` merged into an empty
sequence append a default element each, in order. -/
theorem vec_merge_accumulates_two_frames_witness :
    VecField.merge unitMsg [] 2 WireType.LengthDelimited [0, 0] = .ok [()] [0] ∧
    VecField.merge unitMsg ([] ++ [()]) 2 WireType.LengthDelimited [0] =
      .ok ([] ++ [(), ()]) [] :=
  vec_merge_accumulates_two_frames unitMsg [] 2 [0, 0] [0] [] () () (by decide) (by decide)

/-- Claim C8: once the underflow check passes, the nested merge runs on a
view of exactly `len` bytes: whatever it does, the buffer after
`merge_length_delimited` or `decode_length_delimited` is some suffix of the
`len`-byte frame followed by all the bytes past the frame — the decoder
never reads past the declared frame.  The hypothesis on `M.merge` is the
readable-buffer contract: a merge only advances its buffer. -/
theorem length_delimited_merge_bounded_by_frame (M : Message α) (m : α)
    (hM : ∀ x b, (M.merge x b).rest <:+ b)
    (buf buf1 : List Nat) (len : Nat)
    (h1 : decode_varint buf = some (len, buf1)) (h2 : len ≤ buf1.length) :
    (∃ l1, l1 <:+ buf1.take len ∧
      (M.merge_length_delimited m buf).rest = l1 ++ buf1.drop len) ∧
    (∃ l2, l2 <:+ buf1.take len ∧
      (M.decode_length_delimited buf).rest = l2 ++ buf1.drop len) := by
  constructor
  · unfold Message.merge_length_delimited
    simp only [h1]
    rw [if_neg (by omega)]
    cases hm : M.merge m (buf1.take len) with
    | ok m' r =>
      refine ⟨r, ?_, by simp [MResult.rest]⟩
      have h := hM m (buf1.take len)
      rw [hm] at h
      exact h
    | err e m' r =>
      refine ⟨r, ?_, by simp [MResult.rest]⟩
      have h := hM m (buf1.take len)
      rw [hm] at h
      exact h
  · unfold Message.decode_length_delimited Message.decode
    simp only [h1]
    rw [if_neg (by omega)]
    cases hm : M.merge M.default (buf1.take len) with
    | ok m' r =>
      refine ⟨r, ?_, by simp [MResult.rest]⟩
      have h := hM M.default (buf1.take len)
      rw [hm] at h
      exact h
    | err e m' r =>
      refine ⟨r, ?_, by simp [MResult.rest]⟩
      have h := hM M.default (buf1.take len)
      rw [hm] at h
      exact h

/-- Witness for C8: the buffer `[1, 7, 9]` declares a 1-byte frame `[7]`;
after decoding, the byte `9` past the frame is untouched. -/
theorem length_delimited_merge_bounded_by_frame_witness :
    (∃ l1, l1 <:+ ([7, 9] : List Nat).take 1 ∧
      (unitMsg.merge_length_delimited () [1, 7, 9]).rest = l1 ++ ([7, 9] : List Nat).drop 1) ∧
    (∃ l2, l2 <:+ ([7, 9] : List Nat).take 1 ∧
      (unitMsg.decode_length_delimited [1, 7, 9]).rest = l2 ++ ([7, 9] : List Nat).drop 1) :=
  length_delimited_merge_bounded_by_frame unitMsg ()
    (fun _ b => ⟨b, List.append_nil b⟩) [1, 7, 9] [7, 9] 1 (by decide) (by decide)

/-- Claim C9: whatever the collection-field merge does, the previously
existing elements survive unmodified: on error the sequence is returned
exactly as it was, and on success the result is the old sequence with one
element appended at the end. -/
theorem vec_merge_preserves_existing_elements (M : Message α) (v : List α) (tag : Nat)
    (wt : WireType) (buf : List Nat) :
    match VecField.merge M v tag wt buf with
    | .ok v' _ => ∃ m, v' = v ++ [m]
    | .err _ v' _ => v' = v := by
  unfold VecField.merge
  cases hw : check_wire_type WireType.LengthDelimited wt with
  | some e => exact rfl
  | none =>
    cases hm : MessageField.merge M M.default tag WireType.LengthDelimited buf with
    | ok value rest => exact ⟨value, rfl⟩
    | err e m' rest => exact rfl

/-- Claim C10: the singular message-field merge ignores its tag argument —
for any two tags the whole outcome (value, buffer state, success or error)
is identical. -/
theorem field_merge_tag_independent (M : Message α) (m : α) (t1 t2 : Nat)
    (wt : WireType) (buf : List Nat) :
    MessageField.merge M m t1 wt buf = MessageField.merge M m t2 wt buf :=
  rfl

end Prost
